import Mathlib

/-!
Verification development for `SimpleHTTPServerWithUpload_Python3.py`.

The Python source is shallowly embedded: Python `str` values are modelled as
`List Char`, Python `bytes` values as `List Nat` (each entry a byte 0..255),
and the ambient process state (current working directory, `os.path.isdir`,
the outcome of `open`/`write`) as an explicit `Sys` record.  POSIX path
semantics are modelled (`os.path` = `posixpath`), matching the platform the
server is written for.  Exceptions are modelled with `Except PyExc`.
All recursion is structural (fuelled where the Python loop is not), so every
definition evaluates by kernel reduction on concrete inputs.
-/

/-- Characters of a Lean string literal; used to write Python `str` constants. -/
def toChars (s : String) : List Char := s.data

section PySeq

variable {α : Type} [DecidableEq α]

/-- Does `hay` begin with `needle`?  (Used to model Python `startswith` and as
the occurrence test for `find`/`split`.) -/
def startsSeq : List α → List α → Bool
  | [], _ => true
  | _ :: _, [] => false
  | a :: as, b :: bs => if a = b then startsSeq as bs else false

/-- Does `hay` end with `needle`?  Models Python `endswith`. -/
def endsSeq (needle hay : List α) : Bool := startsSeq needle.reverse hay.reverse

/-- Index of the first occurrence of `sep` in `s`, if any; models `bytes.find`
and drives the splitting loop of Python `split`. -/
def findSeq (sep : List α) : List α → Option Nat
  | [] => if startsSeq sep [] then some 0 else none
  | a :: t => if startsSeq sep (a :: t) then some 0 else (findSeq sep t).map (· + 1)

/-- Models the Python `in` operator on sequences (substring containment). -/
def containsSeq (sep s : List α) : Bool := (findSeq sep s).isSome

/-- Fuelled worker for Python `split(sep)`: split at each occurrence of `sep`,
left to right, keeping empty pieces.  The fuel only bounds the recursion; with
fuel `≥ s.length` it never runs out. -/
def pySplitGo (sep : List α) : Nat → List α → List (List α)
  | 0, s => [s]
  | fuel + 1, s =>
    match findSeq sep s with
    | none => [s]
    | some n => s.take n :: pySplitGo sep fuel (s.drop (n + sep.length))

/-- Python `s.split(sep)` for a non-empty separator. -/
def pySplit (sep s : List α) : List (List α) := pySplitGo sep (s.length + 1) s

/-- Python `seq[1]` as an `Option`: `none` models the `IndexError` case. -/
def pyIndex1 : List α → Option α
  | _ :: b :: _ => some b
  | _ => none

end PySeq

/-- The Python exceptions that the upload path of the source can raise. -/
inductive PyExc : Type where
  /-- `IndexError` from `content_type.split("boundary=")[1]`. -/
  | indexError : PyExc
  /-- `ValueError` from `int(...)` on a malformed content-length string. -/
  | valueError (arg : List Char) : PyExc
  /-- `UnicodeDecodeError` from `bytes.decode('utf-8')`; carries the offending
  byte, its position, and the reason text CPython reports. -/
  | unicodeError (b : Nat) (pos : Nat) (reason : List Char) : PyExc
deriving DecidableEq

deriving instance DecidableEq for Except

/-- `str(e)` for the exceptions above, as CPython formats them. -/
def excMsg : PyExc → List Char
  | .indexError => toChars "list index out of range"
  | .valueError arg =>
      toChars "invalid literal for int() with base 10: '" ++ arg ++ toChars "'"
  | .unicodeError b pos reason =>
      toChars "'utf-8' codec can't decode byte 0x" ++
        (if b < 16 then '0' :: Nat.toDigits 16 b else Nat.toDigits 16 b) ++
        toChars " in position " ++ Nat.toDigits 10 pos ++ toChars ": " ++ reason

/-- UTF-8 encoding of one character (1–4 bytes). -/
def utf8EncodeChar (c : Char) : List Nat :=
  let n := c.toNat
  if n < 128 then [n]
  else if n < 2048 then [192 + n / 64, 128 + n % 64]
  else if n < 65536 then [224 + n / 4096, 128 + n / 64 % 64, 128 + n % 64]
  else [240 + n / 262144, 128 + n / 4096 % 64, 128 + n / 64 % 64, 128 + n % 64]

/-- `str.encode('utf-8')` on the `List Char` model of a Python string. -/
def utf8Encode (s : List Char) : List Nat := (s.map utf8EncodeChar).flatten

/-- Bytes of an ASCII/UTF-8 Lean string literal; used to write Python `bytes`
constants such as `b'Content-Disposition'`. -/
def toBytes (s : String) : List Nat := utf8Encode s.data

/-- Fuelled strict UTF-8 decoder: models `bytes.decode('utf-8')`, raising
`UnicodeDecodeError` on invalid data exactly where CPython does. -/
def utf8DecodeGo : Nat → Nat → List Nat → Except PyExc (List Char)
  | 0, _, _ => .ok []
  | fuel + 1, pos, l =>
    match l with
    | [] => .ok []
    | b :: rest =>
      if b < 128 then
        (utf8DecodeGo fuel (pos + 1) rest).map (Char.ofNat b :: ·)
      else if 194 ≤ b ∧ b ≤ 223 then
        match rest with
        | b2 :: r2 =>
          if 128 ≤ b2 ∧ b2 ≤ 191 then
            (utf8DecodeGo fuel (pos + 2) r2).map
              (Char.ofNat ((b - 192) * 64 + (b2 - 128)) :: ·)
          else .error (.unicodeError b pos (toChars "invalid continuation byte"))
        | [] => .error (.unicodeError b pos (toChars "unexpected end of data"))
      else if 224 ≤ b ∧ b ≤ 239 then
        match rest with
        | b2 :: b3 :: r3 =>
          if (if b = 224 then 160 ≤ b2 ∧ b2 ≤ 191
              else if b = 237 then 128 ≤ b2 ∧ b2 ≤ 159
              else 128 ≤ b2 ∧ b2 ≤ 191) then
            if 128 ≤ b3 ∧ b3 ≤ 191 then
              (utf8DecodeGo fuel (pos + 3) r3).map
                (Char.ofNat ((b - 224) * 4096 + (b2 - 128) * 64 + (b3 - 128)) :: ·)
            else .error (.unicodeError b pos (toChars "invalid continuation byte"))
          else .error (.unicodeError b pos (toChars "invalid continuation byte"))
        | _ => .error (.unicodeError b pos (toChars "unexpected end of data"))
      else if 240 ≤ b ∧ b ≤ 244 then
        match rest with
        | b2 :: b3 :: b4 :: r4 =>
          if (if b = 240 then 144 ≤ b2 ∧ b2 ≤ 191
              else if b = 244 then 128 ≤ b2 ∧ b2 ≤ 143
              else 128 ≤ b2 ∧ b2 ≤ 191) then
            if (128 ≤ b3 ∧ b3 ≤ 191) ∧ (128 ≤ b4 ∧ b4 ≤ 191) then
              (utf8DecodeGo fuel (pos + 4) r4).map
                (Char.ofNat ((b - 240) * 262144 + (b2 - 128) * 4096 +
                  (b3 - 128) * 64 + (b4 - 128)) :: ·)
            else .error (.unicodeError b pos (toChars "invalid continuation byte"))
          else .error (.unicodeError b pos (toChars "invalid continuation byte"))
        | _ => .error (.unicodeError b pos (toChars "unexpected end of data"))
      else .error (.unicodeError b pos (toChars "invalid start byte"))

/-- `bytes.decode('utf-8')` (strict). -/
def utf8DecodeStrict (l : List Nat) : Except PyExc (List Char) :=
  utf8DecodeGo (l.length + 1) 0 l

/-- The U+FFFD replacement character. -/
def replChar : Char := Char.ofNat 65533

/-- Fuelled UTF-8 decoder with `errors='replace'`: invalid data becomes
U+FFFD covering the maximal invalid subpart, as CPython's codec does. -/
def utf8ReplaceGo : Nat → List Nat → List Char
  | 0, _ => []
  | fuel + 1, l =>
    match l with
    | [] => []
    | b :: rest =>
      if b < 128 then Char.ofNat b :: utf8ReplaceGo fuel rest
      else if 194 ≤ b ∧ b ≤ 223 then
        match rest with
        | b2 :: r2 =>
          if 128 ≤ b2 ∧ b2 ≤ 191 then
            Char.ofNat ((b - 192) * 64 + (b2 - 128)) :: utf8ReplaceGo fuel r2
          else replChar :: utf8ReplaceGo fuel rest
        | [] => [replChar]
      else if 224 ≤ b ∧ b ≤ 239 then
        match rest with
        | b2 :: b3 :: r3 =>
          if (if b = 224 then 160 ≤ b2 ∧ b2 ≤ 191
              else if b = 237 then 128 ≤ b2 ∧ b2 ≤ 159
              else 128 ≤ b2 ∧ b2 ≤ 191) then
            if 128 ≤ b3 ∧ b3 ≤ 191 then
              Char.ofNat ((b - 224) * 4096 + (b2 - 128) * 64 + (b3 - 128)) ::
                utf8ReplaceGo fuel r3
            else replChar :: utf8ReplaceGo fuel (b3 :: r3)
          else replChar :: utf8ReplaceGo fuel rest
        | [b2] =>
          if (if b = 224 then 160 ≤ b2 ∧ b2 ≤ 191
              else if b = 237 then 128 ≤ b2 ∧ b2 ≤ 159
              else 128 ≤ b2 ∧ b2 ≤ 191) then [replChar]
          else [replChar, replChar]
        | [] => [replChar]
      else if 240 ≤ b ∧ b ≤ 244 then
        match rest with
        | b2 :: b3 :: b4 :: r4 =>
          if (if b = 240 then 144 ≤ b2 ∧ b2 ≤ 191
              else if b = 244 then 128 ≤ b2 ∧ b2 ≤ 143
              else 128 ≤ b2 ∧ b2 ≤ 191) then
            if 128 ≤ b3 ∧ b3 ≤ 191 then
              if 128 ≤ b4 ∧ b4 ≤ 191 then
                Char.ofNat ((b - 240) * 262144 + (b2 - 128) * 4096 +
                  (b3 - 128) * 64 + (b4 - 128)) :: utf8ReplaceGo fuel r4
              else replChar :: utf8ReplaceGo fuel (b4 :: r4)
            else replChar :: utf8ReplaceGo fuel (b3 :: b4 :: r4)
          else replChar :: utf8ReplaceGo fuel rest
        | _ => [replChar]
      else replChar :: utf8ReplaceGo fuel rest

/-- `bytes.decode('utf-8', 'replace')`. -/
def utf8DecodeReplace (l : List Nat) : List Char := utf8ReplaceGo (l.length + 1) l

/-- Is `c` one of the hexadecimal digit characters accepted by `int(x, 16)`? -/
def isHexChar (c : Char) : Bool :=
  ('0' ≤ c ∧ c ≤ '9') ∨ ('a' ≤ c ∧ c ≤ 'f') ∨ ('A' ≤ c ∧ c ≤ 'F')

/-- Numeric value of a hexadecimal digit character. -/
def hexVal (c : Char) : Nat :=
  if '0' ≤ c ∧ c ≤ '9' then c.toNat - 48
  else if 'a' ≤ c ∧ c ≤ 'f' then c.toNat - 87
  else c.toNat - 55

/-- Models `urllib.parse.unquote_to_bytes` on the UTF-8 encoding of `s`:
split on `'%'`; a piece starting with hex digits contributes the decoded
byte (one or two hex digits, as `int(item[:2], 16)` accepts both), other
pieces keep their leading `'%'`. -/
def unquoteToBytes (s : List Char) : List Nat :=
  match pySplit ['%'] s with
  | [] => []
  | b0 :: rest =>
    utf8Encode b0 ++
      (rest.map fun item =>
        match item with
        | c1 :: c2 :: tl =>
          if isHexChar c1 ∧ isHexChar c2 then
            (hexVal c1 * 16 + hexVal c2) :: utf8Encode tl
          else utf8Encode ('%' :: item)
        | [c1] =>
          if isHexChar c1 then [hexVal c1] else utf8Encode ['%', c1]
        | [] => utf8Encode ['%']).flatten

/-- Models `urllib.parse.unquote` with the default `encoding='utf-8',
errors='replace'`: a string without `'%'` is returned unchanged (CPython's
early return); otherwise the percent-escapes are decoded at byte level and
the result is UTF-8-decoded with replacement. -/
def unquote (s : List Char) : List Char :=
  if '%' ∈ s then utf8DecodeReplace (unquoteToBytes s) else s

/-- Python `path.split(c, 1)[0]`: everything before the first `c`. -/
def stripAfter (c : Char) (s : List Char) : List Char := s.takeWhile (· ≠ c)

/-- `posixpath.normpath`, transcribed from CPython: this is the per-component
step of its `for comp in comps` loop. -/
def npStep (islashes : Nat) (acc : List (List Char)) (comp : List Char) :
    List (List Char) :=
  if comp = [] ∨ comp = toChars "." then acc
  else if comp ≠ toChars ".." ∨ (islashes = 0 ∧ acc = []) ∨
      (acc ≠ [] ∧ acc.getLast? = some (toChars "..")) then acc ++ [comp]
  else if acc ≠ [] then acc.dropLast else acc

/-- `posixpath.normpath(p)`. -/
def normpath (p : List Char) : List Char :=
  if p = [] then toChars "." else
  let islashes : Nat :=
    if startsSeq (toChars "/") p then
      (if startsSeq (toChars "//") p ∧ ¬ startsSeq (toChars "///") p then 2 else 1)
    else 0
  let comps := pySplit ['/'] p
  let newComps := comps.foldl (npStep islashes) []
  let out := List.replicate islashes '/' ++ List.intercalate (toChars "/") newComps
  if out = [] then toChars "." else out

/-- `os.path.splitdrive` on POSIX: the drive is always empty. -/
def splitdrive (p : List Char) : List Char × List Char := ([], p)

/-- `posixpath.split(p)`: `(head, tail)` around the last `'/'`, the head
stripped of trailing slashes unless it is all slashes. -/
def posixSplitParts (p : List Char) : List Char × List Char :=
  let tail := (p.reverse.takeWhile (fun c => c ≠ '/')).reverse
  let head := p.take (p.length - tail.length)
  let head2 :=
    if head ≠ [] ∧ ¬ head.all (fun c => c = '/') then
      (head.reverse.dropWhile (fun c => c = '/')).reverse
    else head
  (head2, tail)

/-- `posixpath.dirname(p)`. -/
def posixDirname (p : List Char) : List Char := (posixSplitParts p).1

/-- `posixpath.join(a, b)` for two arguments. -/
def posixJoin (a b : List Char) : List Char :=
  if b.head? = some '/' then b
  else if a = [] ∨ a.getLast? = some '/' then a ++ b
  else a ++ '/' :: b

/-- One iteration of the `for word in words` loop of `translate_path`. -/
def tpStep (path word : List Char) : List Char :=
  let w1 := (splitdrive word).2
  let w2 := (posixSplitParts w1).2
  if w2 = toChars "." ∨ w2 = toChars ".." then path else posixJoin path w2

/-- `SimpleHTTPRequestHandler.translate_path`, with `os.getcwd()` passed
explicitly as `cwd`. -/
def translate_path (cwd p : List Char) : List Char :=
  let p1 := stripAfter '?' p
  let p2 := stripAfter '#' p1
  let p3 := normpath (unquote p2)
  let words := (pySplit ['/'] p3).filter (fun w => ¬ w.isEmpty)
  words.foldl tpStep cwd

/-- Python whitespace stripped by `str.strip()` (the ASCII cases). -/
def isPyWS (c : Char) : Bool := c = ' ' ∨ c = '\t' ∨ c = '\n' ∨ c = '\r' ∨ c = '\x0b' ∨ c = '\x0c'

/-- `str.strip()` with no argument. -/
def stripWS (s : List Char) : List Char :=
  ((s.dropWhile isPyWS).reverse.dropWhile isPyWS).reverse

/-- Digit-run parser for `int()`: digits with single underscores allowed
between digits (CPython's grammar for integer literals in `int(str)`). -/
def parseDigitsGo : List Char → Nat → Option Nat
  | [], acc => some acc
  | '_' :: c :: rest, acc =>
    if c.isDigit then parseDigitsGo rest (acc * 10 + (c.toNat - 48)) else none
  | '_' :: [], _ => none
  | c :: rest, acc =>
    if c.isDigit then parseDigitsGo rest (acc * 10 + (c.toNat - 48)) else none

/-- Nonempty digit run starting with a digit. -/
def parseDigits : List Char → Option Nat
  | [] => none
  | c :: rest => if c.isDigit then parseDigitsGo rest (c.toNat - 48) else none

/-- Python `int(s)` on a string: strip whitespace, optional sign, digit run;
`ValueError` (carrying the original argument) otherwise. -/
def pyInt (s : List Char) : Except PyExc Int :=
  match stripWS s with
  | '+' :: t =>
    match parseDigits t with
    | some n => .ok (n : Int)
    | none => .error (.valueError s)
  | '-' :: t =>
    match parseDigits t with
    | some n => .ok (-(n : Int))
    | none => .error (.valueError s)
  | t =>
    match parseDigits t with
    | some n => .ok (n : Int)
    | none => .error (.valueError s)

/-- One POST request as the handler sees it: `self.path`, the headers the
code reads (case-insensitive lookup already performed), and the raw socket
bytes available to `self.rfile.read`. -/
structure Req where
  path : List Char
  ctHeader : Option (List Char)
  clHeader : Option (List Char)
  referer : Option (List Char)
  body : List Nat
deriving DecidableEq

/-- The ambient process state the handler touches: `os.getcwd()`,
`os.path.isdir`, and whether `open(filepath, 'wb')`/`write` raises `IOError`
(`some msg` = the `str` of the raised error, `none` = success). -/
structure Sys where
  cwd : List Char
  isDir : List Char → Bool
  writeError : List Char → Option (List Char)

/-- Result of `deal_post_data`: the `(r, info)` pair the Python returns plus
the list of files written to disk (path, content). -/
structure UploadOutcome where
  ok : Bool
  info : List Char
  writes : List (List Char × List Nat)
deriving DecidableEq

/-- `b'Content-Disposition'`. -/
def cdBytes : List Nat := toBytes "Content-Disposition"

/-- `b'filename='`. -/
def fneqBytes : List Nat := toBytes "filename="

/-- The fixed part of the pattern `rb'filename="([^"]*)"'`. -/
def fnqBytes : List Nat := toBytes "filename=\""

/-- `b'\r\n'`. -/
def crlfB : List Nat := [13, 10]

/-- `re.search(rb'filename="([^"]*)"', line)`: the capture of the leftmost
match, if any.  A match exists exactly when `filename="` occurs and a closing
quote follows its first occurrence. -/
def reFilename (line : List Nat) : Option (List Nat) :=
  match findSeq fnqBytes line with
  | none => none
  | some i =>
    let after := line.drop (i + fnqBytes.length)
    let cap := after.takeWhile (fun b => b ≠ 34)
    if cap.length < after.length then some cap else none

/-- The `for i, line in enumerate(lines)` scan of `deal_post_data`: extract a
filename from `Content-Disposition` lines, stop at the first blank
non-`Content-Disposition` line recording `content_start = i + 1`; if the loop
finishes without a break, `content_start` stays `0`. -/
def scanGo (lines : List (List Nat)) (i : Nat) (fn : Option (List Char)) :
    Except PyExc (Option (List Char) × Nat) :=
  match lines with
  | [] => .ok (fn, 0)
  | line :: rest =>
    if containsSeq cdBytes line then
      match reFilename line with
      | some bs =>
        match utf8DecodeStrict bs with
        | .ok s => scanGo rest (i + 1) (some s)
        | .error e => .error e
      | none => scanGo rest (i + 1) fn
    else if line = [] then .ok (fn, i + 1)
    else scanGo rest (i + 1) fn

/-- The `for part in parts` loop of `deal_post_data`: the first part that
yields a non-empty filename and a header-terminating position inside the part
is saved (or reports an `IOError`), later parts are never reached; if no part
qualifies the loop falls through to `"No file found in upload data"`. -/
def partsLoop (sys : Sys) (selfPath : List Char) :
    List (List Nat) → Except PyExc UploadOutcome
  | [] => .ok ⟨false, toChars "No file found in upload data", []⟩
  | part :: rest =>
    if containsSeq cdBytes part && containsSeq fneqBytes part then
      let lines := pySplit crlfB part
      match scanGo lines 0 none with
      | .error e => .error e
      | .ok (fn?, cs) =>
        match fn? with
        | some fn =>
          if fn ≠ [] ∧ cs < lines.length then
            let content0 := List.intercalate crlfB (lines.drop cs)
            let content :=
              if endsSeq crlfB content0 then content0.take (content0.length - 2)
              else content0
            let dir0 := translate_path sys.cwd selfPath
            let dir := if sys.isDir dir0 then dir0 else posixDirname dir0
            let filepath := posixJoin dir fn
            match sys.writeError filepath with
            | none =>
              .ok ⟨true, toChars "File '" ++ fn ++ toChars "' uploaded successfully!",
                [(filepath, content)]⟩
            | some e => .ok ⟨false, toChars "Can't save file: " ++ e, []⟩
          else partsLoop sys selfPath rest
        | none => partsLoop sys selfPath rest
    else partsLoop sys selfPath rest

/-- The body of the `try` block of `deal_post_data`. -/
def dealPostBody (req : Req) (sys : Sys) : Except PyExc UploadOutcome :=
  match req.ctHeader with
  | none => .ok ⟨false, toChars "Content-Type header is missing", []⟩
  | some ct =>
    if ct = [] then .ok ⟨false, toChars "Content-Type header is missing", []⟩
    else if ¬ startsSeq (toChars "multipart/form-data") ct then
      .ok ⟨false, toChars "Content-Type is not multipart/form-data", []⟩
    else
      match pyIndex1 (pySplit (toChars "boundary=") ct) with
      | none => .error .indexError
      | some bdStr =>
        let boundary := utf8Encode bdStr
        match (match req.clHeader with
               | none => .ok (0 : Int)
               | some s => pyInt s : Except PyExc Int) with
        | .error e => .error e
        | .ok clVal =>
          if clVal ≤ 0 then .ok ⟨false, toChars "No data received", []⟩
          else
            let postData := req.body.take clVal.toNat
            partsLoop sys req.path (pySplit ([45, 45] ++ boundary) postData)

/-- `deal_post_data`, including the enclosing `except Exception` handler. -/
def dealPostData (req : Req) (sys : Sys) : UploadOutcome :=
  match dealPostBody req sys with
  | .ok out => out
  | .error e => ⟨false, toChars "Error processing upload: " ++ excMsg e, []⟩

/-- `html.escape(s)` with the default `quote=True` (single pass; equivalent
to CPython's chain of `str.replace` calls since no replacement output is
itself replaced again). -/
def escChar (c : Char) : List Char :=
  if c = '&' then toChars "&amp;"
  else if c = '<' then toChars "&lt;"
  else if c = '>' then toChars "&gt;"
  else if c = '"' then toChars "&quot;"
  else if c = Char.ofNat 39 then toChars "&#x27;"
  else [c]

/-- `html.escape` on the `List Char` model. -/
def htmlEscape (s : List Char) : List Char := (s.map escChar).flatten

/-- `self.headers.get('referer', '/')`. -/
def refererOr (req : Req) : List Char :=
  match req.referer with
  | some r => r
  | none => toChars "/"

/-- Literal segments of the `do_POST` result page f-string. -/
def pgHead : String := "<!DOCTYPE html>\n<html>\n<head>\n    <title>Upload Result Page</title>\n    <meta charset=\"utf-8\">\n</head>\n<body>\n    <h2>Upload Result Page</h2>\n    <hr>\n    <p><strong>"

/-- Segment between the status word and the escaped message. -/
def pgMid : String := ":</strong> "

/-- Segment between the escaped message and the `href` attribute. -/
def pgPreHref : String := "</p>\n    <p><a "

/-- Segment after the closing quote of the `href` attribute. -/
def pgTail : String := ">Back</a></p>\n    <hr>\n    <small>Powered By: Python 3 SimpleHTTPServerWithUpload</small>\n</body>\n</html>"

/-- The HTML result page `do_POST` builds (the f-string of lines 46–60). -/
def uploadPage (ok : Bool) (info ref : List Char) : List Char :=
  toChars pgHead ++ (if ok then toChars "Success" else toChars "Failed") ++
    toChars pgMid ++ htmlEscape info ++ toChars pgPreHref ++
    toChars "href=\"" ++ ref ++ toChars "\"" ++ toChars pgTail

/-- The response `do_POST` sends: status line and the two explicit headers,
with the body kept as the pre-encoding string and `contentLength` its UTF-8
byte count. -/
structure HttpResponse where
  status : Nat
  contentType : List Char
  contentLength : Nat
  body : List Char
deriving DecidableEq

/-- `do_POST`. -/
def doPOST (req : Req) (sys : Sys) : HttpResponse :=
  let out := dealPostData req sys
  let body := uploadPage out.ok out.info (refererOr req)
  { status := 200
    contentType := toChars "text/html; charset=utf-8"
    contentLength := (utf8Encode body).length
    body := body }

/-- One part of a canonically framed `multipart/form-data` body: its header
lines (without line terminators) and its raw content. -/
structure MPart where
  headers : List (List Nat)
  content : List Nat
deriving DecidableEq

/-- `b'--' + boundary`, the token `deal_post_data` splits on. -/
def boundSep (bd : List Nat) : List Nat := 45 :: 45 :: bd

/-- The text a canonical part occupies between two boundary tokens:
`CRLF headers CRLF CRLF content CRLF`. -/
def encPart (p : MPart) : List Nat :=
  crlfB ++ List.intercalate crlfB p.headers ++ crlfB ++ crlfB ++ p.content ++ crlfB

/-- A canonical (RFC 2046-framed) `multipart/form-data` body:
`--B CRLF part1 CRLF --B CRLF part2 CRLF ... --B-- CRLF`. -/
def mkBody (bd : List Nat) (parts : List MPart) : List Nat :=
  boundSep bd ++ parts.foldr (fun p acc => encPart p ++ boundSep bd ++ acc) (toBytes "--\r\n")

/-- A path component that cannot navigate: non-empty, not `.` or `..`, and
holding no separator.  `translate_path` only ever appends such components. -/
def safeWord (w : List Char) : Prop :=
  w ≠ [] ∧ w ≠ toChars "." ∧ w ≠ toChars ".." ∧ '/' ∉ w

/-- `q` lies lexically within `root`: it is `root` extended by a (possibly
empty) chain of safe components. -/
def withinRoot (root q : List Char) : Prop :=
  ∃ ws : List (List Char), (∀ w ∈ ws, safeWord w) ∧ q = ws.foldl posixJoin root

/-- `needle` occurs contiguously inside `hay`. -/
def occursIn {α : Type} (needle hay : List α) : Prop :=
  ∃ u v, u ++ needle ++ v = hay

/-- `a` is an initial segment of `b`. -/
def leadsList {α : Type} (a b : List α) : Prop := ∃ t, a ++ t = b

/-- `a` is a final segment of `b`. -/
def tailsList {α : Type} (a b : List α) : Prop := ∃ t, t ++ a = b

/-- Process state used by the concrete request evaluations: server root
`/srv/root`, `/srv/root/uploads` present as a directory, writes succeed. -/
def sysUploads : Sys :=
  ⟨toChars "/srv/root", fun p => p == toChars "/srv/root/uploads", fun _ => none⟩

/-- Process state where only the root itself is a directory and writes
succeed. -/
def sysRootDir : Sys :=
  ⟨toChars "/srv/root", fun p => p == toChars "/srv/root", fun _ => none⟩

/-- The round-trip upload body of spec §8.3: boundary `XYZ`, one part with a
`Content-Disposition` header carrying `filename="a.txt"`, content `hello`,
framed canonically (RFC 2046: boundary line, CRLF, headers, blank line,
content, CRLF, closing delimiter). -/
def bodyRoundTrip : List Nat :=
  mkBody (toBytes "XYZ")
    [⟨[toBytes "Content-Disposition: form-data; name=\"file\"; filename=\"a.txt\""],
      toBytes "hello"⟩]

/-- The POST request of the round-trip upload property. -/
def reqRoundTrip : Req :=
  ⟨toChars "/uploads/", some (toChars "multipart/form-data; boundary=XYZ"),
    some (toChars "88"), none, bodyRoundTrip⟩

/-- A canonical two-file-part body (first part `a.txt`/`AAA`, second part
`b.txt`/`BBB`). -/
def bodyTwoParts : List Nat :=
  mkBody (toBytes "XYZ")
    [⟨[toBytes "Content-Disposition: form-data; name=\"f\"; filename=\"a.txt\""],
      toBytes "AAA"⟩,
     ⟨[toBytes "Content-Disposition: form-data; name=\"g\"; filename=\"b.txt\""],
      toBytes "BBB"⟩]

/-- A POST carrying two canonical file-bearing parts. -/
def reqTwoParts : Req :=
  ⟨toChars "/", some (toChars "multipart/form-data; boundary=XYZ"),
    some (toChars "157"), none, bodyTwoParts⟩

/-- An upload body in the only framing the parser accepts (headers directly
after the boundary token, no CRLF between), whose filename attribute is
`../evil.txt`. -/
def bodyEvil : List Nat :=
  toBytes "--XYZContent-Disposition: form-data; name=\"f\"; filename=\"../evil.txt\"\r\n\r\nowned\r\n--XYZ--\r\n"

/-- The POST request carrying `bodyEvil` at URL path `/`. -/
def reqEvil : Req :=
  ⟨toChars "/", some (toChars "multipart/form-data; boundary=XYZ"),
    some (toChars "89"), none, bodyEvil⟩

/-- A POST whose multipart content-type carries no `boundary` parameter and
whose content-length header is absent. -/
def reqNoBoundary : Req :=
  ⟨toChars "/", some (toChars "multipart/form-data"), none, none, []⟩

/-- A POST whose multipart content-type carries a parameter but no
`boundary`, used to exercise the `IndexError` path. -/
def reqNoBoundary2 : Req :=
  ⟨toChars "/", some (toChars "multipart/form-data; charset=x"),
    some (toChars "5"), none, toBytes "hello"⟩

/-- A POST with a boundary but a zero content length. -/
def reqZeroLen : Req :=
  ⟨toChars "/", some (toChars "multipart/form-data; boundary=XYZ"),
    some (toChars "0"), none, []⟩

/-- A POST whose Referer header carries HTML metacharacters. -/
def reqBadReferer : Req :=
  ⟨toChars "/", none, none, some (toChars "\"><script>alert(1)</script>"), []⟩

/-- One canonical part whose `Content-Disposition` header carries no
`filename` attribute. -/
def partsNoFn : List MPart :=
  [⟨[toBytes "Content-Disposition: form-data; name=\"file\""], toBytes "hello"⟩]

/-! ### Basic facts about `startsSeq`, `findSeq` and `pySplit` -/

section PySeqLemmas

variable {α : Type} [DecidableEq α]

theorem startsSeq_iff (sep l : List α) : startsSeq sep l = true ↔ ∃ t, sep ++ t = l := by
  induction sep generalizing l with
  | nil => simp only [startsSeq, List.nil_append, true_iff]; exact ⟨l, rfl⟩
  | cons a as ih =>
    cases l with
    | nil => simp [startsSeq]
    | cons b bs =>
      by_cases hab : a = b
      · subst hab
        simp [startsSeq, ih]
      · simp [startsSeq, hab]

theorem startsSeq_length_le {sep l : List α} (h : startsSeq sep l = true) :
    sep.length ≤ l.length := by
  obtain ⟨t, ht⟩ := (startsSeq_iff sep l).1 h
  subst ht
  simp

theorem startsSeq_append_left {sep x : List α} (r : List α)
    (h : startsSeq sep (x ++ r) = true) (hl : sep.length ≤ x.length) :
    startsSeq sep x = true := by
  induction sep generalizing x with
  | nil => simp [startsSeq]
  | cons a as ih =>
    cases x with
    | nil => simp at hl
    | cons b bs =>
      simp only [List.cons_append, startsSeq] at h ⊢
      by_cases hab : a = b
      · simp only [hab, if_pos rfl] at h ⊢
        exact ih (by simpa using h) (by simpa using hl)
      · simp [hab] at h

theorem findSeq_none_iff (sep s : List α) :
    findSeq sep s = none ↔ ∀ i, startsSeq sep (s.drop i) = false := by
  induction s with
  | nil =>
    constructor
    · intro h i
      simp only [findSeq] at h
      cases hs : startsSeq sep ([] : List α)
      · simpa using hs
      · simp [hs] at h
    · intro h
      have h0 := h 0
      simp only [List.drop_nil] at h0
      simp [findSeq, h0]
  | cons a t ih =>
    constructor
    · intro h i
      simp only [findSeq] at h
      cases hs : startsSeq sep (a :: t)
      · rw [hs] at h
        simp only [Bool.false_eq_true, if_false, Option.map_eq_none'] at h
        cases i with
        | zero => simpa using hs
        | succ j => simpa using ih.1 h j
      · simp [hs] at h
    · intro h
      have h0 := h 0
      simp only [List.drop_zero] at h0
      have ht : findSeq sep t = none := ih.2 (fun j => by simpa using h (j + 1))
      simp [findSeq, h0, ht]

theorem findSeq_min {sep s : List α} {n : Nat} (h : findSeq sep s = some n) :
    startsSeq sep (s.drop n) = true ∧ ∀ i < n, startsSeq sep (s.drop i) = false := by
  induction s generalizing n with
  | nil =>
    simp only [findSeq] at h
    cases hs : startsSeq sep ([] : List α)
    · simp [hs] at h
    · rw [hs] at h
      simp only [if_true] at h
      have hn : n = 0 := by simpa using h.symm
      subst hn
      exact ⟨by simpa using hs, by omega⟩
  | cons a t ih =>
    simp only [findSeq] at h
    cases hs : startsSeq sep (a :: t)
    · rw [hs] at h
      simp only [Bool.false_eq_true, if_false] at h
      cases hft : findSeq sep t with
      | none => simp [hft] at h
      | some m =>
        rw [hft] at h
        simp only [Option.map_some'] at h
        have hn : n = m + 1 := by simpa using h.symm
        subst hn
        obtain ⟨h1, h2⟩ := ih hft
        refine ⟨by simpa using h1, ?_⟩
        intro i hi
        cases i with
        | zero => simpa using hs
        | succ j => simpa using h2 j (by omega)
    · rw [hs] at h
      simp only [if_true] at h
      have hn : n = 0 := by simpa using h.symm
      subst hn
      exact ⟨by simpa using hs, by omega⟩

theorem findSeq_of_first {sep s : List α} {n : Nat}
    (h1 : startsSeq sep (s.drop n) = true)
    (h2 : ∀ i < n, startsSeq sep (s.drop i) = false) :
    findSeq sep s = some n := by
  induction s generalizing n with
  | nil =>
    simp only [List.drop_nil] at h1
    cases n with
    | zero => simp [findSeq, h1]
    | succ m =>
      have := h2 0 (by omega)
      simp only [List.drop_nil] at this
      rw [h1] at this
      cases this
  | cons a t ih =>
    cases n with
    | zero =>
      simp only [List.drop_zero] at h1
      simp [findSeq, h1]
    | succ m =>
      have h0 := h2 0 (by omega)
      simp only [List.drop_zero] at h0
      have ht : findSeq sep t = some m :=
        ih (by simpa using h1) (fun i hi => by simpa using h2 (i + 1) (by omega))
      simp [findSeq, h0, ht]

theorem containsSeq_false_iff (sep s : List α) :
    containsSeq sep s = false ↔ ∀ i, startsSeq sep (s.drop i) = false := by
  unfold containsSeq
  rw [← findSeq_none_iff]
  cases h : findSeq sep s <;> simp [h]

theorem pySplitGo_ne_nil (sep : List α) (f : Nat) (s : List α) :
    pySplitGo sep f s ≠ [] := by
  cases f with
  | zero => simp [pySplitGo]
  | succ g =>
    unfold pySplitGo
    cases h : findSeq sep s <;> simp [h]

end PySeqLemmas

section PySeqLemmas2

theorem mem_of_getLast?_eq {α : Type} {l : List α} {z : α} (h : l.getLast? = some z) :
    z ∈ l := by
  induction l with
  | nil => simp at h
  | cons a t ih =>
    cases t with
    | nil =>
      simp only [List.getLast?_singleton, Option.some.injEq] at h
      simp [h]
    | cons b u =>
      rw [List.getLast?_cons_cons] at h
      exact List.mem_cons_of_mem a (ih h)

theorem getLast?_drop_eq {α : Type} {a : List α} {i : Nat} (h : i < a.length) :
    (a.drop i).getLast? = a.getLast? := by
  induction a generalizing i with
  | nil => simp at h
  | cons x t ih =>
    cases i with
    | zero => rfl
    | succ j =>
      have hj : j < t.length := by simpa using h
      cases t with
      | nil => simp at hj
      | cons b u =>
        rw [List.drop_succ_cons, List.getLast?_cons_cons]
        exact ih hj

variable {α : Type} [DecidableEq α]

theorem findSeq_le_length {sep s : List α} {n : Nat} (h : findSeq sep s = some n) :
    n ≤ s.length := by
  induction s generalizing n with
  | nil =>
    simp only [findSeq] at h
    cases hs : startsSeq sep ([] : List α)
    · simp [hs] at h
    · rw [hs] at h
      simp only [if_true] at h
      have hn : n = 0 := by simpa using h.symm
      simp [hn]
  | cons a t ih =>
    simp only [findSeq] at h
    cases hs : startsSeq sep (a :: t)
    · rw [hs] at h
      simp only [Bool.false_eq_true, if_false] at h
      cases hft : findSeq sep t with
      | none => simp [hft] at h
      | some m =>
        rw [hft] at h
        simp only [Option.map_some'] at h
        have hn : n = m + 1 := by simpa using h.symm
        subst hn
        have := ih hft
        simp only [List.length_cons]
        omega
    · rw [hs] at h
      simp only [if_true] at h
      have hn : n = 0 := by simpa using h.symm
      simp [hn]

theorem findSeq_bound {sep s : List α} {n : Nat} (hsep : sep ≠ [])
    (h : findSeq sep s = some n) : n + sep.length ≤ s.length := by
  have h1 := (findSeq_min h).1
  have h2 := startsSeq_length_le h1
  rw [List.length_drop] at h2
  have hsl : 1 ≤ sep.length := by
    cases sep with
    | nil => exact absurd rfl hsep
    | cons c cs => simp
  omega

end PySeqLemmas2

section PySeqLemmas3

variable {α : Type} [DecidableEq α]

theorem pySplitGo_fuel {sep : List α} (hsep : sep ≠ []) :
    ∀ f₁ f₂ s, s.length ≤ f₁ → s.length ≤ f₂ →
      pySplitGo sep f₁ s = pySplitGo sep f₂ s := by
  intro f₁
  induction f₁ with
  | zero =>
    intro f₂ s h1 _
    have hs : s = [] := List.length_eq_zero.1 (Nat.le_zero.1 h1)
    subst hs
    have hf : findSeq sep ([] : List α) = none := by
      cases sep with
      | nil => exact absurd rfl hsep
      | cons c cs => simp [findSeq, startsSeq]
    cases f₂ with
    | zero => rfl
    | succ g => simp [pySplitGo, hf]
  | succ g ih =>
    intro f₂ s h1 h2
    cases f₂ with
    | zero =>
      have hs : s = [] := List.length_eq_zero.1 (Nat.le_zero.1 h2)
      subst hs
      have hf : findSeq sep ([] : List α) = none := by
        cases sep with
        | nil => exact absurd rfl hsep
        | cons c cs => simp [findSeq, startsSeq]
      simp [pySplitGo, hf]
    | succ g₂ =>
      show pySplitGo sep (g + 1) s = pySplitGo sep (g₂ + 1) s
      unfold pySplitGo
      cases hf : findSeq sep s with
      | none => rfl
      | some n =>
        have hb := findSeq_bound hsep hf
        have hd : (s.drop (n + sep.length)).length = s.length - (n + sep.length) := by
          simp
        have hsl : 1 ≤ sep.length := by
          cases sep with
          | nil => exact absurd rfl hsep
          | cons c cs => simp
        simp only []
        rw [ih g₂ (s.drop (n + sep.length)) (by omega) (by omega)]

theorem pySplitGo_succ (sep : List α) (f : Nat) (s : List α) :
    pySplitGo sep (f + 1) s =
      match findSeq sep s with
      | none => [s]
      | some n => s.take n :: pySplitGo sep f (s.drop (n + sep.length)) := rfl

theorem pySplit_step {sep s : List α} {n : Nat} (hsep : sep ≠ [])
    (h : findSeq sep s = some n) :
    pySplit sep s = s.take n :: pySplit sep (s.drop (n + sep.length)) := by
  have hb := findSeq_bound hsep h
  unfold pySplit
  rw [pySplitGo_succ, h]
  show s.take n :: pySplitGo sep s.length (s.drop (n + sep.length)) = _
  congr 1
  have hlen : (s.drop (n + sep.length)).length = s.length - (n + sep.length) := by simp
  exact pySplitGo_fuel hsep _ _ _ (by omega) (by omega)

theorem pySplit_led {sep : List α} (hsep : sep ≠ []) (b : List α) :
    pySplit sep (sep ++ b) = [] :: pySplit sep b := by
  have hstart : startsSeq sep ((sep ++ b).drop 0) = true := by
    simpa using (startsSeq_iff sep (sep ++ b)).2 ⟨b, rfl⟩
  have hfind : findSeq sep (sep ++ b) = some 0 :=
    findSeq_of_first hstart (by omega)
  rw [pySplit_step hsep hfind]
  simp only [List.take_zero, Nat.zero_add, List.drop_left]

theorem pySplit_cat {sep : List α} (hsep : sep ≠ []) (a b : List α)
    (hno : ∀ i < a.length, startsSeq sep ((a ++ (sep ++ b)).drop i) = false) :
    pySplit sep (a ++ (sep ++ b)) = a :: pySplit sep b := by
  have hstart : startsSeq sep ((a ++ (sep ++ b)).drop a.length) = true := by
    rw [List.drop_left]
    exact (startsSeq_iff _ _).2 ⟨b, rfl⟩
  have hfind : findSeq sep (a ++ (sep ++ b)) = some a.length :=
    findSeq_of_first hstart hno
  rw [pySplit_step hsep hfind]
  have htake : (a ++ (sep ++ b)).take a.length = a := List.take_left a (sep ++ b)
  have hdrop : (a ++ (sep ++ b)).drop (a.length + sep.length) = b := by
    rw [← List.append_assoc]
    have hl : a.length + sep.length = (a ++ sep).length := by simp
    rw [hl, List.drop_left]
  rw [htake, hdrop]

theorem pySplit_nosep {sep s : List α} (h : findSeq sep s = none) :
    pySplit sep s = [s] := by
  unfold pySplit
  rw [pySplitGo_succ, h]

theorem startsSeq_no_early {sep a : List α} (r : List α)
    (h1 : containsSeq sep a = false) {z : α} (hz : a.getLast? = some z)
    (hzs : z ∉ sep) :
    ∀ i < a.length, startsSeq sep ((a ++ r).drop i) = false := by
  intro i hi
  cases hval : startsSeq sep ((a ++ r).drop i)
  · rfl
  · exfalso
    have hdrop : (a ++ r).drop i = a.drop i ++ r := by
      rw [List.drop_append_eq_append_drop]
      have h0 : i - a.length = 0 := by omega
      rw [h0, List.drop_zero]
    rw [hdrop] at hval
    by_cases hle : sep.length ≤ (a.drop i).length
    · have hpre := startsSeq_append_left r hval hle
      have hfalse := (containsSeq_false_iff sep a).1 h1 i
      rw [hpre] at hfalse
      cases hfalse
    · obtain ⟨t, ht⟩ := (startsSeq_iff _ _).1 hval
      have hlen : (a.drop i).length ≤ sep.length := by omega
      have htake : sep.take (a.drop i).length = a.drop i := by
        have hcong := congrArg (List.take (a.drop i).length) ht
        rw [List.take_append_eq_append_take] at hcong
        have h0 : (a.drop i).length - sep.length = 0 := by omega
        rw [h0, List.take_zero, List.append_nil] at hcong
        rw [hcong, List.take_left]
      have hlast : (a.drop i).getLast? = some z := by
        rw [getLast?_drop_eq hi, hz]
      have hmem : z ∈ a.drop i := mem_of_getLast?_eq hlast
      rw [← htake] at hmem
      exact hzs (List.take_subset _ _ hmem)

end PySeqLemmas3

section PySeqLemmas4

variable {α : Type} [DecidableEq α]

theorem startsSeq_single_cons (c x : α) (t : List α) :
    startsSeq [c] (x :: t) = true ↔ c = x := by
  by_cases h : c = x <;> simp [startsSeq, h]

theorem containsSeq_single (c : α) (s : List α) :
    containsSeq [c] s = false ↔ c ∉ s := by
  rw [containsSeq_false_iff]
  constructor
  · intro h hmem
    obtain ⟨u, v, huv⟩ := List.append_of_mem hmem
    have hu := h u.length
    rw [huv, List.drop_left] at hu
    rw [(startsSeq_single_cons c c v).2 rfl] at hu
    cases hu
  · intro h i
    cases hd : s.drop i with
    | nil => rfl
    | cons x t =>
      cases hval : startsSeq [c] (x :: t)
      · rfl
      · exfalso
        have hcx : c = x := (startsSeq_single_cons c x t).1 hval
        subst hcx
        have hcs : c ∈ s := by
          have hin : c ∈ s.drop i := by
            rw [hd]
            exact List.mem_cons_self _ _
          exact List.mem_of_mem_drop hin
        exact h hcs

theorem not_mem_pySplitGo_single (c : α) :
    ∀ f s w, s.length ≤ f → w ∈ pySplitGo [c] f s → c ∉ w := by
  intro f
  induction f with
  | zero =>
    intro s w h1 hw
    have hs : s = [] := List.length_eq_zero.1 (Nat.le_zero.1 h1)
    subst hs
    simp only [pySplitGo, List.mem_singleton] at hw
    subst hw
    simp
  | succ g ih =>
    intro s w h1 hw
    rw [pySplitGo_succ] at hw
    cases hf : findSeq [c] s with
    | none =>
      rw [hf] at hw
      simp only [List.mem_singleton] at hw
      subst hw
      refine (containsSeq_single c w).1 ?_
      unfold containsSeq
      rw [hf]
      rfl
    | some n =>
      rw [hf] at hw
      simp only [List.mem_cons] at hw
      cases hw with
      | inl hw =>
        subst hw
        intro hmem
        obtain ⟨u, v, huv⟩ := List.append_of_mem hmem
        have hulen : u.length < n := by
          have hl1 : (s.take n).length = u.length + (v.length + 1) := by
            rw [huv]
            simp
          have hl2 : (s.take n).length ≤ n := by
            rw [List.length_take]
            omega
          omega
        have hmin := (findSeq_min hf).2 u.length hulen
        have hsplit : s = u ++ (c :: (v ++ s.drop n)) := by
          conv_lhs => rw [← List.take_append_drop n s]
          rw [huv, List.append_assoc, List.cons_append]
        have hdu : s.drop u.length = c :: (v ++ s.drop n) := by
          conv_lhs => rw [hsplit]
          rw [List.drop_left]
        rw [hdu, (startsSeq_single_cons c c _).2 rfl] at hmin
        cases hmin
      | inr hw =>
        have hb := findSeq_bound (by simp) hf
        have hlen2 : (s.drop (n + [c].length)).length ≤ g := by
          rw [List.length_drop]
          simp only [List.length_singleton] at hb ⊢
          omega
        exact ih _ w hlen2 hw

theorem not_mem_pySplit_single (c : α) (s : List α) :
    ∀ w ∈ pySplit [c] s, c ∉ w :=
  fun w hw => not_mem_pySplitGo_single c (s.length + 1) s w (by omega) hw

omit [DecidableEq α] in
theorem takeWhile_all {p : α → Bool} {l : List α} (h : ∀ a ∈ l, p a = true) :
    l.takeWhile p = l := by
  induction l with
  | nil => rfl
  | cons a t ih =>
    rw [List.takeWhile_cons, h a (List.mem_cons_self a t)]
    simp [ih (fun b hb => h b (List.mem_cons_of_mem a hb))]

end PySeqLemmas4

/-! ### The `translate_path` loop only appends safe components -/

theorem posixSplitParts_tail_eq {w : List Char} (hw : '/' ∉ w) :
    (posixSplitParts w).2 = w := by
  unfold posixSplitParts
  simp only []
  have hall : ∀ a ∈ w.reverse, (decide (a ≠ '/')) = true := by
    intro a ha
    rw [List.mem_reverse] at ha
    simp only [decide_eq_true_eq]
    intro hEq
    rw [hEq] at ha
    exact hw ha
  rw [takeWhile_all hall, List.reverse_reverse]

theorem tpStep_clean {w : List Char} (hw : '/' ∉ w) (acc : List Char) :
    tpStep acc w =
      if w = toChars "." ∨ w = toChars ".." then acc else posixJoin acc w := by
  show (if (posixSplitParts w).2 = toChars "." ∨ (posixSplitParts w).2 = toChars ".."
      then acc else posixJoin acc (posixSplitParts w).2) = _
  rw [posixSplitParts_tail_eq hw]

theorem posixJoin_app {w : List Char} (hw1 : w ≠ []) (hw2 : '/' ∉ w)
    (acc : List Char) : ∃ t, t ≠ [] ∧ posixJoin acc w = acc ++ t := by
  unfold posixJoin
  have hhead : w.head? ≠ some '/' := by
    cases w with
    | nil => exact absurd rfl hw1
    | cons c cs =>
      intro hEq
      simp only [List.head?_cons, Option.some.injEq] at hEq
      rw [hEq] at hw2
      exact hw2 (List.mem_cons_self _ _)
  rw [if_neg hhead]
  by_cases hacc : acc = [] ∨ acc.getLast? = some '/'
  · rw [if_pos hacc]
    exact ⟨w, hw1, rfl⟩
  · rw [if_neg hacc]
    exact ⟨'/' :: w, by simp, rfl⟩

theorem foldl_posixJoin_leads {ws : List (List Char)}
    (hws : ∀ w ∈ ws, safeWord w) (acc : List Char) :
    ∃ t, ws.foldl posixJoin acc = acc ++ t := by
  induction ws generalizing acc with
  | nil => exact ⟨[], by simp⟩
  | cons w ws ih =>
    obtain ⟨hw1, _, _, hw4⟩ := hws w (List.mem_cons_self _ _)
    obtain ⟨t₀, _, ht₀⟩ := posixJoin_app hw1 hw4 acc
    obtain ⟨t₁, ht₁⟩ := ih (fun v hv => hws v (List.mem_cons_of_mem _ hv)) (posixJoin acc w)
    refine ⟨t₀ ++ t₁, ?_⟩
    rw [List.foldl_cons, ht₁, ht₀, List.append_assoc]

theorem head?_append_of_ne_nil {acc t : List Char} (h : acc ≠ []) :
    (acc ++ t).head? = acc.head? := by
  cases acc with
  | nil => exact absurd rfl h
  | cons a l => rfl

theorem foldl_tpStep_within {words : List (List Char)}
    (hw : ∀ w ∈ words, w ≠ [] ∧ '/' ∉ w) (acc : List Char) :
    ∃ ws : List (List Char), (∀ w ∈ ws, safeWord w) ∧
      words.foldl tpStep acc = ws.foldl posixJoin acc := by
  induction words generalizing acc with
  | nil => exact ⟨[], by simp, rfl⟩
  | cons w words ih =>
    obtain ⟨hw1, hw2⟩ := hw w (List.mem_cons_self _ _)
    have hrest : ∀ v ∈ words, v ≠ [] ∧ '/' ∉ v :=
      fun v hv => hw v (List.mem_cons_of_mem _ hv)
    rw [List.foldl_cons, tpStep_clean hw2]
    by_cases hdot : w = toChars "." ∨ w = toChars ".."
    · rw [if_pos hdot]
      exact ih hrest acc
    · rw [if_neg hdot]
      obtain ⟨ws, hws, heq⟩ := ih hrest (posixJoin acc w)
      push_neg at hdot
      refine ⟨w :: ws, ?_, by rw [heq, List.foldl_cons]⟩
      intro v hv
      rcases List.mem_cons.1 hv with hv | hv
      · subst hv
        exact ⟨hw1, hdot.1, hdot.2, hw2⟩
      · exact hws v hv

theorem translate_path_words (cwd p : List Char) :
    ∃ ws : List (List Char), (∀ w ∈ ws, safeWord w) ∧
      translate_path cwd p = ws.foldl posixJoin cwd := by
  unfold translate_path
  apply foldl_tpStep_within
  intro w hw
  rw [List.mem_filter] at hw
  obtain ⟨hmem, hne⟩ := hw
  constructor
  · intro hnil
    subst hnil
    simp at hne
  · exact not_mem_pySplit_single '/' _ w hmem

/-- C1: Sandbox invariant of path resolution: for every URL path string —
including any number of `../` segments, drive specifiers and absolute-path
overrides — and every absolute working directory `cwd`, `translate_path`
yields an absolute path lexically within the server root: it starts with
`/`, extends `cwd`, and is exactly `cwd` joined with safe components
(non-empty, not `.`/`..`, no separator). -/
theorem translate_path_sandbox (cwd p : List Char) (h : cwd.head? = some '/') :
    (translate_path cwd p).head? = some '/' ∧
    leadsList cwd (translate_path cwd p) ∧
    withinRoot cwd (translate_path cwd p) := by
  obtain ⟨ws, hws, heq⟩ := translate_path_words cwd p
  have hne : cwd ≠ [] := by
    intro hnil
    rw [hnil] at h
    cases h
  obtain ⟨t, ht⟩ := foldl_posixJoin_leads hws cwd
  refine ⟨?_, ⟨t, by rw [heq, ht]⟩, ws, hws, heq⟩
  rw [heq, ht, head?_append_of_ne_nil hne, h]

/-- Witness for C1: resolving `/../../etc/passwd` against root `/srv` stays
inside `/srv` (and concretely equals `/srv/etc/passwd`). -/
theorem translate_path_sandbox_witness :
    (toChars "/srv").head? = some '/' ∧
    translate_path (toChars "/srv") (toChars "/../../etc/passwd") =
      toChars "/srv/etc/passwd" ∧
    ((translate_path (toChars "/srv") (toChars "/../../etc/passwd")).head? = some '/' ∧
      leadsList (toChars "/srv")
        (translate_path (toChars "/srv") (toChars "/../../etc/passwd")) ∧
      withinRoot (toChars "/srv")
        (translate_path (toChars "/srv") (toChars "/../../etc/passwd"))) :=
  ⟨by decide, by decide,
    translate_path_sandbox (toChars "/srv") (toChars "/../../etc/passwd") (by decide)⟩

/-! ### Canonical shape of resolved paths (used for the idempotence claim) -/

theorem toChars_slash : toChars "/" = ['/'] := rfl

theorem getLast?_append_right {α : Type} {l₁ l₂ : List α} (h : l₂ ≠ []) :
    (l₁ ++ l₂).getLast? = l₂.getLast? :=
  List.getLast?_append_of_ne_nil l₁ h

theorem intercalate_cons₂ (sep : List Char) (w v : List Char)
    (vs : List (List Char)) :
    List.intercalate sep (w :: v :: vs) =
      w ++ sep ++ List.intercalate sep (v :: vs) := by
  simp [List.intercalate, List.intersperse_cons_cons, List.append_assoc]

theorem exists_getLast?_mem {w : List Char} (h : w ≠ []) :
    ∃ z, w.getLast? = some z ∧ z ∈ w := by
  induction w with
  | nil => exact absurd rfl h
  | cons a t ih =>
    cases t with
    | nil => exact ⟨a, rfl, List.mem_cons_self _ _⟩
    | cons b u =>
      obtain ⟨z, hz, hzm⟩ := ih (by simp)
      exact ⟨z, by rw [List.getLast?_cons_cons, hz], List.mem_cons_of_mem _ hzm⟩

theorem getLast?_slash_cons {w : List Char} (hw1 : w ≠ []) (hw2 : '/' ∉ w) :
    ('/' :: w).getLast? ≠ some '/' := by
  obtain ⟨z, hz, hzm⟩ := exists_getLast?_mem hw1
  have : ('/' :: w).getLast? = some z := by
    cases w with
    | nil => exact absurd rfl hw1
    | cons b u => rw [List.getLast?_cons_cons, hz]
  rw [this]
  intro hEq
  have hzs : z = '/' := by simpa using hEq
  rw [hzs] at hzm
  exact hw2 hzm

theorem foldl_posixJoin_flat {ws : List (List Char)}
    (hws : ∀ w ∈ ws, safeWord w) :
    ∀ acc, acc ≠ [] → acc.getLast? ≠ some '/' →
      ws.foldl posixJoin acc = acc ++ (ws.map (fun w => '/' :: w)).flatten := by
  induction ws with
  | nil => intro acc _ _; simp
  | cons w ws ih =>
    intro acc hne hlast
    obtain ⟨hw1, _, _, hw4⟩ := hws w (List.mem_cons_self _ _)
    have hjoin : posixJoin acc w = acc ++ '/' :: w := by
      unfold posixJoin
      have hhead : w.head? ≠ some '/' := by
        cases w with
        | nil => exact absurd rfl hw1
        | cons c cs =>
          intro hEq
          simp only [List.head?_cons, Option.some.injEq] at hEq
          rw [hEq] at hw4
          exact hw4 (List.mem_cons_self _ _)
      rw [if_neg hhead, if_neg (by push_neg; exact ⟨hne, hlast⟩)]
    rw [List.foldl_cons, hjoin]
    have hacc' : acc ++ '/' :: w ≠ [] := by simp
    have hlast' : (acc ++ '/' :: w).getLast? ≠ some '/' := by
      rw [getLast?_append_right (by simp)]
      exact getLast?_slash_cons hw1 hw4
    rw [ih (fun v hv => hws v (List.mem_cons_of_mem _ hv)) _ hacc' hlast']
    simp [List.append_assoc]

theorem intercalate_slash_flat (w : List Char) (ws : List (List Char)) :
    List.intercalate (toChars "/") (w :: ws) =
      w ++ (ws.map (fun v => '/' :: v)).flatten := by
  induction ws generalizing w with
  | nil => simp [List.intercalate]
  | cons v vs ih =>
    rw [intercalate_cons₂, ih v, toChars_slash]
    simp [List.append_assoc]

theorem foldl_posixJoin_root {ws : List (List Char)}
    (hws : ∀ w ∈ ws, safeWord w) :
    ws.foldl posixJoin (toChars "/") =
      '/' :: List.intercalate (toChars "/") ws := by
  cases ws with
  | nil => rfl
  | cons w ws =>
    obtain ⟨hw1, _, _, hw4⟩ := hws w (List.mem_cons_self _ _)
    have hjoin : posixJoin (toChars "/") w = '/' :: w := by
      unfold posixJoin
      have hhead : w.head? ≠ some '/' := by
        cases w with
        | nil => exact absurd rfl hw1
        | cons c cs =>
          intro hEq
          simp only [List.head?_cons, Option.some.injEq] at hEq
          rw [hEq] at hw4
          exact hw4 (List.mem_cons_self _ _)
      have hcond : toChars "/" = [] ∨ (toChars "/").getLast? = some '/' :=
        Or.inr (by decide)
      rw [if_neg hhead, if_pos hcond, toChars_slash]
      rfl
    rw [List.foldl_cons, hjoin,
      foldl_posixJoin_flat (fun v hv => hws v (List.mem_cons_of_mem _ hv)) _
        (by simp) (getLast?_slash_cons hw1 hw4),
      intercalate_slash_flat]
    rfl

theorem findSeq_none_of_not_mem {α : Type} [DecidableEq α] {c : α} {s : List α}
    (h : c ∉ s) : findSeq [c] s = none := by
  cases hf : findSeq [c] s with
  | none => rfl
  | some n =>
    exfalso
    have htrue : containsSeq [c] s = true := by
      unfold containsSeq
      rw [hf]
      rfl
    rw [(containsSeq_single c s).2 h] at htrue
    cases htrue

theorem pySplit_intercalate {ws : List (List Char)}
    (hws : ∀ w ∈ ws, w ≠ [] ∧ '/' ∉ w) (hne : ws ≠ []) :
    pySplit ['/'] (List.intercalate (toChars "/") ws) = ws := by
  induction ws with
  | nil => exact absurd rfl hne
  | cons w vs ih =>
    cases vs with
    | nil =>
      have h1 : List.intercalate (toChars "/") [w] = w := by simp [List.intercalate]
      rw [h1]
      obtain ⟨-, hw2⟩ := hws w (List.mem_cons_self _ _)
      exact pySplit_nosep (findSeq_none_of_not_mem hw2)
    | cons v vs' =>
      obtain ⟨hw1, hw2⟩ := hws w (List.mem_cons_self _ _)
      rw [intercalate_cons₂, List.append_assoc]
      show pySplit ['/'] (w ++ (['/'] ++ List.intercalate (toChars "/") (v :: vs'))) =
        w :: v :: vs'
      have hcontains : containsSeq ['/'] w = false := (containsSeq_single '/' w).2 hw2
      obtain ⟨z, hz, hzm⟩ := exists_getLast?_mem hw1
      have hzs : z ∉ (['/'] : List Char) := by
        intro hmem
        have hzslash : z = '/' := by simpa using hmem
        rw [hzslash] at hzm
        exact hw2 hzm
      have hno := startsSeq_no_early
        (['/'] ++ List.intercalate (toChars "/") (v :: vs')) hcontains hz hzs
      rw [pySplit_cat (by simp) w _ hno]
      rw [ih (fun u hu => hws u (List.mem_cons_of_mem _ hu)) (by simp)]

theorem npStep_fold_safe {ws : List (List Char)} (hws : ∀ w ∈ ws, safeWord w)
    (isl : Nat) : ∀ acc, ws.foldl (npStep isl) acc = acc ++ ws := by
  induction ws with
  | nil => intro acc; simp
  | cons w vs ih =>
    intro acc
    obtain ⟨hw1, hwd, hwdd, -⟩ := hws w (List.mem_cons_self _ _)
    have hstep : npStep isl acc w = acc ++ [w] := by
      unfold npStep
      rw [if_neg (by push_neg; exact ⟨hw1, hwd⟩), if_pos (Or.inl hwdd)]
    rw [List.foldl_cons, hstep, ih (fun u hu => hws u (List.mem_cons_of_mem _ hu))]
    simp

theorem normpath_canonical {ws : List (List Char)}
    (hws : ∀ w ∈ ws, safeWord w) :
    normpath ('/' :: List.intercalate (toChars "/") ws) =
      '/' :: List.intercalate (toChars "/") ws := by
  cases ws with
  | nil => decide
  | cons w vs =>
    obtain ⟨hw1, -, -, hw4⟩ := hws w (List.mem_cons_self _ _)
    obtain ⟨c, cs, hcw⟩ := List.exists_cons_of_ne_nil hw1
    have hcne : c ≠ '/' := by
      intro hEq
      rw [hcw, hEq] at hw4
      exact hw4 (List.mem_cons_self _ _)
    have hic : ∃ rest, List.intercalate (toChars "/") (w :: vs) = c :: rest := by
      rw [intercalate_slash_flat, hcw]
      exact ⟨cs ++ (vs.map (fun v => '/' :: v)).flatten, by simp⟩
    obtain ⟨rest, hrest⟩ := hic
    have h1 : startsSeq (toChars "/") ('/' :: List.intercalate (toChars "/") (w :: vs)) = true := by
      rw [toChars_slash]
      exact (startsSeq_single_cons '/' '/' _).2 rfl
    have h2 : startsSeq (toChars "//") ('/' :: List.intercalate (toChars "/") (w :: vs)) = false := by
      rw [hrest]
      show startsSeq ['/', '/'] ('/' :: c :: rest) = false
      unfold startsSeq
      rw [if_pos rfl]
      cases hval : startsSeq ['/'] (c :: rest)
      · rfl
      · exact absurd ((startsSeq_single_cons '/' c rest).1 hval) (fun hx => hcne hx.symm)
    have hcomps : pySplit ['/'] ('/' :: List.intercalate (toChars "/") (w :: vs)) =
        [] :: w :: vs := by
      show pySplit ['/'] (['/'] ++ List.intercalate (toChars "/") (w :: vs)) = [] :: w :: vs
      rw [pySplit_led (by simp),
        pySplit_intercalate
          (fun u hu => ⟨((hws u hu).1), ((hws u hu).2.2.2)⟩) (by simp)]
    have hfold : ([] :: w :: vs).foldl (npStep 1) [] = w :: vs := by
      rw [List.foldl_cons]
      have hskip : npStep 1 [] [] = [] := by
        unfold npStep
        rw [if_pos (Or.inl rfl)]
      rw [hskip, npStep_fold_safe hws 1 []]
      rfl
    unfold normpath
    rw [if_neg (by simp)]
    simp only [h1, h2, if_true, Bool.false_eq_true, false_and, if_false, hcomps, hfold]
    rw [if_neg (by simp)]
    rfl

theorem foldl_tpStep_safe {ws : List (List Char)} (hws : ∀ w ∈ ws, safeWord w) :
    ∀ acc, ws.foldl tpStep acc = ws.foldl posixJoin acc := by
  induction ws with
  | nil => intro acc; rfl
  | cons w vs ih =>
    intro acc
    obtain ⟨-, hwd, hwdd, hw4⟩ := hws w (List.mem_cons_self _ _)
    rw [List.foldl_cons, List.foldl_cons, tpStep_clean hw4,
      if_neg (by push_neg; exact ⟨hwd, hwdd⟩)]
    exact ih (fun u hu => hws u (List.mem_cons_of_mem _ hu)) _

theorem filter_nonempty_id {ws : List (List Char)} (hws : ∀ w ∈ ws, w ≠ []) :
    ws.filter (fun w => ¬ w.isEmpty) = ws := by
  induction ws with
  | nil => rfl
  | cons w vs ih =>
    rw [List.filter_cons]
    have hw : w ≠ [] := hws w (List.mem_cons_self _ _)
    have hpred : (decide ¬(w.isEmpty = true)) = true := by
      cases w with
      | nil => exact absurd rfl hw
      | cons a t => simp
    simp only [hpred, if_true]
    rw [ih (fun u hu => hws u (List.mem_cons_of_mem _ hu))]

theorem translate_path_fixed {t : List Char}
    (hsh : ∃ ws : List (List Char), (∀ w ∈ ws, safeWord w) ∧
      t = '/' :: List.intercalate (toChars "/") ws)
    (h1 : '%' ∉ t) (h2 : '?' ∉ t) (h3 : '#' ∉ t) :
    translate_path (toChars "/") t = t := by
  obtain ⟨ws, hws, rfl⟩ := hsh
  have hs1 : stripAfter '?' ('/' :: List.intercalate (toChars "/") ws) =
      '/' :: List.intercalate (toChars "/") ws := by
    unfold stripAfter
    apply takeWhile_all
    intro a ha
    simp only [decide_eq_true_eq]
    intro hEq
    rw [hEq] at ha
    exact h2 ha
  have hs2 : stripAfter '#' ('/' :: List.intercalate (toChars "/") ws) =
      '/' :: List.intercalate (toChars "/") ws := by
    unfold stripAfter
    apply takeWhile_all
    intro a ha
    simp only [decide_eq_true_eq]
    intro hEq
    rw [hEq] at ha
    exact h3 ha
  have hunq : unquote ('/' :: List.intercalate (toChars "/") ws) =
      '/' :: List.intercalate (toChars "/") ws := by
    unfold unquote
    rw [if_neg h1]
  simp only [translate_path]
  rw [hs1, hs2, hunq, normpath_canonical hws]
  cases ws with
  | nil => decide
  | cons w vs =>
    have hcomps : pySplit ['/'] ('/' :: List.intercalate (toChars "/") (w :: vs)) =
        [] :: w :: vs := by
      show pySplit ['/'] (['/'] ++ List.intercalate (toChars "/") (w :: vs)) =
        [] :: w :: vs
      rw [pySplit_led (by simp),
        pySplit_intercalate
          (fun u hu => ⟨((hws u hu).1), ((hws u hu).2.2.2)⟩) (by simp)]
    have hdrop : ([] :: w :: vs).filter (fun u => ¬ u.isEmpty) =
        (w :: vs).filter (fun u => ¬ u.isEmpty) := by simp
    rw [hcomps, hdrop, filter_nonempty_id (fun u hu => (hws u hu).1),
      foldl_tpStep_safe hws, foldl_posixJoin_root hws]

/-- C2 counterexample: with server root `/srv`, resolving `/a` yields
`/srv/a`, but resolving that result again yields `/srv/srv/a` — the loop
re-joins the root's own components onto the root — so resolution is not
idempotent as claimed. -/
theorem translate_path_not_idempotent :
    translate_path (toChars "/srv") (translate_path (toChars "/srv") (toChars "/a")) ≠
      translate_path (toChars "/srv") (toChars "/a") ∧
    translate_path (toChars "/srv") (toChars "/a") = toChars "/srv/a" ∧
    translate_path (toChars "/srv") (toChars "/srv/a") = toChars "/srv/srv/a" := by
  decide

/-- C2 amended: path resolution is idempotent when the server root is the
filesystem root `/` and the resolved path contains no `%`, `?` or `#`
characters (so that re-decoding percent-escapes and re-stripping query and
fragment markers cannot alter it): resolving the already-resolved path again
yields the same path. -/
theorem translate_path_root_idem (p : List Char)
    (h1 : '%' ∉ translate_path (toChars "/") p)
    (h2 : '?' ∉ translate_path (toChars "/") p)
    (h3 : '#' ∉ translate_path (toChars "/") p) :
    translate_path (toChars "/") (translate_path (toChars "/") p) =
      translate_path (toChars "/") p := by
  obtain ⟨ws, hws, heq⟩ := translate_path_words (toChars "/") p
  exact translate_path_fixed
    ⟨ws, hws, by rw [heq, foldl_posixJoin_root hws]⟩ h1 h2 h3

/-- Witness for C2 (amended): the resolved form of `/a` under root `/` has
no special characters, and resolving it again is the identity. -/
theorem translate_path_root_idem_witness :
    ('%' ∉ translate_path (toChars "/") (toChars "/a") ∧
      '?' ∉ translate_path (toChars "/") (toChars "/a") ∧
      '#' ∉ translate_path (toChars "/") (toChars "/a")) ∧
    translate_path (toChars "/") (translate_path (toChars "/") (toChars "/a")) =
      translate_path (toChars "/") (toChars "/a") :=
  ⟨by decide,
    translate_path_root_idem (toChars "/a") (by decide) (by decide) (by decide)⟩

set_option maxRecDepth 100000 in
/-- C3: the round-trip upload FAILS on the code.  For the exact request the
claim describes — POST to `/uploads/` (which exists as a directory under the
root), canonical multipart body with boundary `XYZ`, one part whose
`Content-Disposition` header carries `filename="a.txt"` and whose content is
`hello` — `deal_post_data` returns `(False, "No file found in upload data")`
and writes nothing: every canonically framed part begins with CRLF, so the
header scan hits the leading empty line first and breaks with no filename. -/
theorem upload_roundtrip_fails :
    dealPostData reqRoundTrip sysUploads =
      ⟨false, toChars "No file found in upload data", []⟩ ∧
    (dealPostData reqRoundTrip sysUploads).writes = [] ∧
    bodyRoundTrip =
      toBytes "--XYZ\r\nContent-Disposition: form-data; name=\"file\"; filename=\"a.txt\"\r\n\r\nhello\r\n--XYZ--\r\n" := by
  decide

set_option maxRecDepth 100000 in
/-- C7: the single-file-upload policy FAILS on the code.  For a canonical
multipart body with two file-bearing parts (`a.txt` then `b.txt`), the first
part's filename and content do not determine any written file: no file is
written at all and the handler reports "No file found in upload data",
because every canonically framed part is skipped by the header scan. -/
theorem upload_first_part_not_used :
    dealPostData reqTwoParts sysRootDir =
      ⟨false, toChars "No file found in upload data", []⟩ ∧
    (dealPostData reqTwoParts sysRootDir).writes = [] := by
  decide

set_option maxRecDepth 100000 in
/-- C9: the destination path is the verbatim `posixpath.join` of the resolved
directory with the client-supplied filename — no sanitization — so a filename
of `../evil.txt` escapes the resolved directory: the handler (fed a body in
the boundary-adjacent framing it accepts) reports success and writes to
`/srv/root/../evil.txt`, which carries a parent-directory segment and is
lexically outside the root `/srv/root`. -/
theorem upload_filename_escapes_root :
    dealPostData reqEvil sysRootDir =
      ⟨true, toChars "File '../evil.txt' uploaded successfully!",
        [(toChars "/srv/root/../evil.txt", toBytes "owned")]⟩ ∧
    toChars "/srv/root/../evil.txt" =
      posixJoin (translate_path (toChars "/srv/root") (toChars "/"))
        (toChars "../evil.txt") ∧
    toChars ".." ∈ pySplit ['/'] (toChars "/srv/root/../evil.txt") := by
  decide

/-- C6: POST response policy: for every POST request the handler answers
status 200 with `Content-Type: text/html; charset=utf-8`, and the body
contains the literal status word (`Success` when the upload succeeded,
`Failed` otherwise), the HTML-escaped message, and a link whose `href` is
the Referer header value, or `/` when that header is absent. -/
theorem post_response_policy (req : Req) (sys : Sys) :
    (doPOST req sys).status = 200 ∧
    (doPOST req sys).contentType = toChars "text/html; charset=utf-8" ∧
    occursIn
      (if (dealPostData req sys).ok then toChars "Success" else toChars "Failed")
      (doPOST req sys).body ∧
    occursIn (htmlEscape (dealPostData req sys).info) (doPOST req sys).body ∧
    occursIn (toChars "href=\"" ++ refererOr req ++ toChars "\"")
      (doPOST req sys).body := by
  refine ⟨rfl, rfl, ?_, ?_, ?_⟩
  · refine ⟨toChars pgHead,
      toChars pgMid ++ htmlEscape (dealPostData req sys).info ++
        toChars pgPreHref ++ toChars "href=\"" ++ refererOr req ++
        toChars "\"" ++ toChars pgTail, ?_⟩
    simp [doPOST, uploadPage, List.append_assoc]
  · refine ⟨toChars pgHead ++
      (if (dealPostData req sys).ok then toChars "Success" else toChars "Failed") ++
        toChars pgMid,
      toChars pgPreHref ++ toChars "href=\"" ++ refererOr req ++
        toChars "\"" ++ toChars pgTail, ?_⟩
    simp [doPOST, uploadPage, List.append_assoc]
  · refine ⟨toChars pgHead ++
      (if (dealPostData req sys).ok then toChars "Success" else toChars "Failed") ++
        toChars pgMid ++ htmlEscape (dealPostData req sys).info ++ toChars pgPreHref,
      toChars pgTail, ?_⟩
    simp [doPOST, uploadPage, List.append_assoc]

/-- C10: the Referer header value is interpolated verbatim — unescaped and
unquoted — into the `href` attribute of the Back link: whenever the request
carries `Referer: r`, the response body contains `href="r"` with `r`
character for character, whatever quotes or angle brackets it holds (while
the message, by contrast, passes through `html.escape`). -/
theorem referer_reflected_verbatim (req : Req) (sys : Sys) (r : List Char)
    (h : req.referer = some r) :
    occursIn (toChars "href=\"" ++ r ++ toChars "\"") (doPOST req sys).body ∧
    occursIn r (doPOST req sys).body := by
  have hr : refererOr req = r := by
    unfold refererOr
    rw [h]
  constructor
  · refine ⟨toChars pgHead ++
      (if (dealPostData req sys).ok then toChars "Success" else toChars "Failed") ++
        toChars pgMid ++ htmlEscape (dealPostData req sys).info ++ toChars pgPreHref,
      toChars pgTail, ?_⟩
    simp [doPOST, uploadPage, hr, List.append_assoc]
  · refine ⟨toChars pgHead ++
      (if (dealPostData req sys).ok then toChars "Success" else toChars "Failed") ++
        toChars pgMid ++ htmlEscape (dealPostData req sys).info ++ toChars pgPreHref ++
        toChars "href=\"",
      toChars "\"" ++ toChars pgTail, ?_⟩
    simp [doPOST, uploadPage, hr, List.append_assoc]

/-- Witness for C10: a Referer of `"><script>alert(1)</script>` appears raw
in the response body. -/
theorem referer_reflected_verbatim_witness :
    reqBadReferer.referer = some (toChars "\"><script>alert(1)</script>") ∧
    (occursIn
      (toChars "href=\"" ++ toChars "\"><script>alert(1)</script>" ++ toChars "\"")
      (doPOST reqBadReferer sysRootDir).body ∧
    occursIn (toChars "\"><script>alert(1)</script>")
      (doPOST reqBadReferer sysRootDir).body) :=
  ⟨rfl, referer_reflected_verbatim reqBadReferer sysRootDir
    (toChars "\"><script>alert(1)</script>") rfl⟩

set_option maxRecDepth 100000 in
/-- C8: no upload-processing error is fatal: whenever the body of
`deal_post_data` raises (boundary-less multipart content-type, malformed
content length, undecodable filename bytes — the `IOError` of the write is
already caught further in), the `except Exception` handler converts it into
the `(False, "Error processing upload: ...")` pair for that request, no file
is written, and `do_POST` still sends a complete 200 result page (full HTML
document from `<!DOCTYPE html>` to `</html>`). -/
theorem upload_errors_caught (req : Req) (sys : Sys) (e : PyExc)
    (h : dealPostBody req sys = .error e) :
    dealPostData req sys =
      ⟨false, toChars "Error processing upload: " ++ excMsg e, []⟩ ∧
    (doPOST req sys).status = 200 ∧
    leadsList (toChars "<!DOCTYPE html>") (doPOST req sys).body ∧
    tailsList (toChars "</html>") (doPOST req sys).body := by
  have h1 : dealPostData req sys =
      ⟨false, toChars "Error processing upload: " ++ excMsg e, []⟩ := by
    unfold dealPostData
    rw [h]
  refine ⟨h1, rfl, ?_, ?_⟩
  · refine ⟨(toChars pgHead).drop 15 ++
      ((if (dealPostData req sys).ok then toChars "Success" else toChars "Failed") ++
        toChars pgMid ++ htmlEscape (dealPostData req sys).info ++ toChars pgPreHref ++
        toChars "href=\"" ++ refererOr req ++ toChars "\"" ++ toChars pgTail), ?_⟩
    rw [← List.append_assoc]
    have hsplit : toChars "<!DOCTYPE html>" ++ (toChars pgHead).drop 15 =
        toChars pgHead := by decide
    rw [hsplit]
    simp [doPOST, uploadPage, List.append_assoc]
  · refine ⟨toChars pgHead ++
      (if (dealPostData req sys).ok then toChars "Success" else toChars "Failed") ++
        toChars pgMid ++ htmlEscape (dealPostData req sys).info ++ toChars pgPreHref ++
        toChars "href=\"" ++ refererOr req ++ toChars "\"" ++
        (toChars pgTail).take ((toChars pgTail).length - 7), ?_⟩
    have hsplit : (toChars pgTail).take ((toChars pgTail).length - 7) ++
        toChars "</html>" = toChars pgTail := by decide
    simp only [List.append_assoc]
    rw [hsplit]
    simp [doPOST, uploadPage, List.append_assoc]

set_option maxRecDepth 100000 in
/-- Witness for C8: a multipart content-type without a `boundary` parameter
raises `IndexError`, which is caught and reported in a complete 200 page. -/
theorem upload_errors_caught_witness :
    dealPostBody reqNoBoundary2 sysRootDir = .error .indexError ∧
    (dealPostData reqNoBoundary2 sysRootDir =
      ⟨false, toChars "Error processing upload: " ++ excMsg .indexError, []⟩ ∧
      (doPOST reqNoBoundary2 sysRootDir).status = 200 ∧
      leadsList (toChars "<!DOCTYPE html>") (doPOST reqNoBoundary2 sysRootDir).body ∧
      tailsList (toChars "</html>") (doPOST reqNoBoundary2 sysRootDir).body) :=
  ⟨by decide, upload_errors_caught reqNoBoundary2 sysRootDir .indexError (by decide)⟩

theorem pyIndex1_of_contains {α : Type} [DecidableEq α] {sep s : List α}
    (hsep : sep ≠ []) (h : containsSeq sep s = true) :
    ∃ x, pyIndex1 (pySplit sep s) = some x := by
  unfold containsSeq at h
  cases hf : findSeq sep s with
  | none =>
    rw [hf] at h
    cases h
  | some n =>
    rw [pySplit_step hsep hf]
    have hne : pySplit sep (s.drop (n + sep.length)) ≠ [] := pySplitGo_ne_nil _ _ _
    cases hr : pySplit sep (s.drop (n + sep.length)) with
    | nil => exact absurd hr hne
    | cons y ys => exact ⟨y, rfl⟩


set_option maxRecDepth 100000 in
/-- C5 counterexample: a POST with `Content-Type: multipart/form-data` (no
`boundary` parameter) and an absent content length should, per the claim,
yield the EmptyBody failure ("No data received"); instead the boundary
extraction raises `IndexError` first and the handler reports
"Error processing upload: list index out of range". -/
theorem post_empty_body_error_preempted :
    dealPostData reqNoBoundary sysRootDir =
      ⟨false, toChars "Error processing upload: list index out of range", []⟩ ∧
    toChars "Error processing upload: list index out of range" ≠
      toChars "No data received" := by
  decide

/-- C5 amended: pre-parse error conditions, in the order the code checks
them: a missing (or empty) content-type header yields the MissingContentType
failure; a content-type not starting with `multipart/form-data` yields the
NotMultipart failure; and — provided the content-type does carry a
`boundary=` parameter, whose extraction otherwise raises first — a declared
content length that is absent or parses to a non-positive integer yields the
EmptyBody failure ("No data received").  In all three cases no file is
written and the failure is a returned human-readable message, not a fault. -/
theorem post_error_precheck (req : Req) (sys : Sys) :
    ((req.ctHeader = none ∨ req.ctHeader = some []) →
      dealPostData req sys =
        ⟨false, toChars "Content-Type header is missing", []⟩) ∧
    (∀ ct, req.ctHeader = some ct → ct ≠ [] →
      startsSeq (toChars "multipart/form-data") ct = false →
      dealPostData req sys =
        ⟨false, toChars "Content-Type is not multipart/form-data", []⟩) ∧
    (∀ ct, req.ctHeader = some ct → ct ≠ [] →
      startsSeq (toChars "multipart/form-data") ct = true →
      containsSeq (toChars "boundary=") ct = true →
      (req.clHeader = none ∨
        ∃ s k, req.clHeader = some s ∧ pyInt s = .ok k ∧ k ≤ 0) →
      dealPostData req sys = ⟨false, toChars "No data received", []⟩) := by
  refine ⟨?_, ?_, ?_⟩
  · intro h
    rcases h with h | h <;> simp [dealPostData, dealPostBody, h]
  · intro ct hct hne hstart
    simp [dealPostData, dealPostBody, hct, hne, hstart]
  · intro ct hct hne hstart hbnd hcl
    obtain ⟨bdStr, hbd⟩ := pyIndex1_of_contains (by decide) hbnd
    rcases hcl with hcln | ⟨s, k, hcls, hpint, hk⟩
    · simp [dealPostData, dealPostBody, hct, hne, hstart, hbd, hcln]
    · simp [dealPostData, dealPostBody, hct, hne, hstart, hbd, hcls, hpint, hk]

set_option maxRecDepth 100000 in
/-- Witness for C5 (amended): the three failure branches at concrete
requests. -/
theorem post_error_precheck_witness :
    dealPostData (⟨toChars "/", none, none, none, []⟩ : Req) sysRootDir =
      ⟨false, toChars "Content-Type header is missing", []⟩ ∧
    dealPostData
        (⟨toChars "/", some (toChars "text/plain"), none, none, []⟩ : Req)
        sysRootDir =
      ⟨false, toChars "Content-Type is not multipart/form-data", []⟩ ∧
    dealPostData reqZeroLen sysRootDir =
      ⟨false, toChars "No data received", []⟩ :=
  ⟨(post_error_precheck _ sysRootDir).1 (Or.inl rfl),
   (post_error_precheck _ sysRootDir).2.1 (toChars "text/plain") rfl
     (by decide) (by decide),
   (post_error_precheck reqZeroLen sysRootDir).2.2
     (toChars "multipart/form-data; boundary=XYZ") rfl (by decide) (by decide)
     (by decide) (Or.inr ⟨toChars "0", 0, rfl, by decide, by decide⟩)⟩

/-! ### Canonically framed multipart bodies are parsed into their parts,
and every canonically framed part is skipped by the header scan -/

theorem boundSep_ne_nil (bd : List Nat) : boundSep bd ≠ [] := by simp [boundSep]

theorem notin_boundSep {bd : List Nat} (h10 : (10:Nat) ∉ bd) :
    (10:Nat) ∉ boundSep bd := by
  intro hmem
  unfold boundSep at hmem
  rcases List.mem_cons.1 hmem with h | hmem
  · cases h
  rcases List.mem_cons.1 hmem with h | hmem
  · cases h
  exact h10 hmem

theorem encPart_regroup (p : MPart) :
    encPart p =
      (crlfB ++ List.intercalate crlfB p.headers ++ crlfB ++ crlfB ++ p.content) ++
        crlfB := by
  simp [encPart, List.append_assoc]

theorem encPart_led (p : MPart) :
    encPart p =
      crlfB ++ (List.intercalate crlfB p.headers ++
        (crlfB ++ (crlfB ++ (p.content ++ crlfB)))) := by
  simp [encPart, List.append_assoc]

theorem encPart_getLast? (p : MPart) : (encPart p).getLast? = some 10 := by
  rw [encPart_regroup, getLast?_append_right (by decide)]
  rfl

theorem findSeq_none_closeTok {bd : List Nat} (hne : bd ≠ [])
    (h13 : (13:Nat) ∉ bd) :
    findSeq (boundSep bd) (toBytes "--\r\n") = none := by
  rw [findSeq_none_iff]
  intro i
  match i with
  | 0 =>
    cases bd with
    | nil => exact absurd rfl hne
    | cons b0 bs =>
      have hb0 : ¬ b0 = 13 := by
        intro h
        rw [h] at h13
        exact h13 (List.mem_cons_self _ _)
      show startsSeq (45 :: 45 :: b0 :: bs) [45, 45, 13, 10] = false
      simp [startsSeq, hb0]
  | 1 =>
    show startsSeq (boundSep bd) [45, 13, 10] = false
    simp [boundSep, startsSeq]
  | 2 =>
    show startsSeq (boundSep bd) [13, 10] = false
    simp [boundSep, startsSeq]
  | 3 =>
    show startsSeq (boundSep bd) [10] = false
    simp [boundSep, startsSeq]
  | n + 4 =>
    have hlen4 : (toBytes "--\r\n").length = 4 := by decide
    have hd : (toBytes "--\r\n").drop (n + 4) = [] :=
      List.drop_eq_nil_of_le (by omega)
    rw [hd]
    simp [boundSep, startsSeq]

theorem pySplit_mkBody_rest {bd : List Nat} (hne : bd ≠ [])
    (h13 : (13:Nat) ∉ bd) (h10 : (10:Nat) ∉ bd) :
    ∀ parts : List MPart,
      (∀ p ∈ parts, containsSeq (boundSep bd) (encPart p) = false) →
      pySplit (boundSep bd)
          (parts.foldr (fun p acc => encPart p ++ boundSep bd ++ acc)
            (toBytes "--\r\n")) =
        parts.map encPart ++ [toBytes "--\r\n"] := by
  intro parts
  induction parts with
  | nil =>
    intro _
    exact pySplit_nosep (findSeq_none_closeTok hne h13)
  | cons p ps ih =>
    intro hfr
    rw [List.foldr_cons, List.append_assoc]
    have hno := startsSeq_no_early
      (boundSep bd ++ ps.foldr (fun q acc => encPart q ++ boundSep bd ++ acc)
        (toBytes "--\r\n"))
      (hfr p (List.mem_cons_self _ _)) (encPart_getLast? p)
      (notin_boundSep h10)
    rw [pySplit_cat (boundSep_ne_nil bd) _ _ hno,
      ih (fun q hq => hfr q (List.mem_cons_of_mem _ hq))]
    rfl

theorem pySplit_mkBody {bd : List Nat} {parts : List MPart} (hne : bd ≠ [])
    (h13 : (13:Nat) ∉ bd) (h10 : (10:Nat) ∉ bd)
    (hfr : ∀ p ∈ parts, containsSeq (boundSep bd) (encPart p) = false) :
    pySplit (boundSep bd) (mkBody bd parts) =
      [] :: (parts.map encPart ++ [toBytes "--\r\n"]) := by
  unfold mkBody
  have hled := pySplit_led (boundSep_ne_nil bd)
    (parts.foldr (fun p acc => encPart p ++ boundSep bd ++ acc) (toBytes "--\r\n"))
  rw [hled, pySplit_mkBody_rest hne h13 h10 parts hfr]

theorem scanGo_leading_blank (rest : List (List Nat)) :
    scanGo ([] :: rest) 0 none = .ok (none, 1) := by
  have hcd : containsSeq cdBytes ([] : List Nat) = false := by decide
  simp [scanGo, hcd]

theorem partsLoop_skip_canonical (sys : Sys) (urlPath : List Char)
    (parts : List MPart) :
    partsLoop sys urlPath
        (([] : List Nat) :: (parts.map encPart ++ [toBytes "--\r\n"])) =
      .ok ⟨false, toChars "No file found in upload data", []⟩ := by
  have hcd0 : (containsSeq cdBytes ([] : List Nat) &&
      containsSeq fneqBytes ([] : List Nat)) = false := by decide
  rw [partsLoop]
  rw [hcd0]
  show partsLoop sys urlPath (parts.map encPart ++ [toBytes "--\r\n"]) = _
  induction parts with
  | nil =>
    have hclose : (containsSeq cdBytes (toBytes "--\r\n") &&
        containsSeq fneqBytes (toBytes "--\r\n")) = false := by decide
    rw [List.map_nil, List.nil_append, partsLoop, hclose]
    rfl
  | cons p ps ih =>
    rw [List.map_cons, List.cons_append, partsLoop]
    cases hc : (containsSeq cdBytes (encPart p) &&
        containsSeq fneqBytes (encPart p))
    · rw [if_neg (by simp)]
      exact ih
    · rw [if_pos rfl]
      have hlines : pySplit crlfB (encPart p) =
          [] :: pySplit crlfB
            (List.intercalate crlfB p.headers ++
              (crlfB ++ (crlfB ++ (p.content ++ crlfB)))) := by
        rw [encPart_led]
        exact pySplit_led (by decide) _
      simp only [hlines, scanGo_leading_blank]
      exact ih

set_option maxRecDepth 100000 in
/-- C4: empty or missing filename is rejected: for every canonically framed
multipart POST body whose parts carry no `filename` attribute, or only empty
ones (each header line either has no `filename="..."` match or matches the
empty string), the handler returns the failure message
"No file found in upload data" and writes no file.  (The hypotheses fix the
request wiring: a multipart content-type whose `boundary=` parameter denotes
`bd`, a content length equal to the body length, and a boundary that is
CR/LF-free and does not occur inside any encoded part.  The no-filename
premise `hnofn` is stated as the claim demands; the conclusion in fact holds
for every canonically framed body, because the parser's header scan breaks
at the leading blank line of every canonical part — see the C3 theorem.) -/
theorem upload_no_filename_rejected
    (sys : Sys) (urlPath ctStr clStr bdStr : List Char) (bd : List Nat)
    (parts : List MPart) (rf : Option (List Char))
    (hct1 : ctStr ≠ [])
    (hct2 : startsSeq (toChars "multipart/form-data") ctStr = true)
    (hbnd : pyIndex1 (pySplit (toChars "boundary=") ctStr) = some bdStr)
    (henc : utf8Encode bdStr = bd)
    (hbd1 : bd ≠ []) (hbd2 : (13:Nat) ∉ bd) (hbd3 : (10:Nat) ∉ bd)
    (hfr : ∀ p ∈ parts, containsSeq (boundSep bd) (encPart p) = false)
    (hcl : pyInt clStr = .ok ((mkBody bd parts).length : Int))
    (hnofn : ∀ p ∈ parts, ∀ h ∈ p.headers,
      reFilename h = none ∨ reFilename h = some []) :
    dealPostData
        (⟨urlPath, some ctStr, some clStr, rf, mkBody bd parts⟩ : Req) sys =
      ⟨false, toChars "No file found in upload data", []⟩ := by
  have hpos : 0 < (mkBody bd parts).length := by simp [mkBody, boundSep]
  have hnle : ¬ (((mkBody bd parts).length : Int) ≤ 0) := by
    intro hle
    have : (mkBody bd parts).length = 0 := by omega
    omega
  have htake : (mkBody bd parts).take
      (((mkBody bd parts).length : Int)).toNat = mkBody bd parts := by
    rw [Int.toNat_natCast]
    exact List.take_length _
  have hsplit := pySplit_mkBody hbd1 hbd2 hbd3 hfr
  have hloop := partsLoop_skip_canonical sys urlPath parts
  simp only [boundSep] at hsplit
  simp [dealPostData, dealPostBody, hct1, hct2, hbnd, hcl, hnle, henc, htake,
    hsplit, hloop]

set_option maxRecDepth 100000 in
/-- Witness for C4: a single canonical part with no `filename` attribute is
rejected with "No file found in upload data" and nothing is written. -/
theorem upload_no_filename_rejected_witness :
    (∀ p ∈ partsNoFn, ∀ h ∈ p.headers,
      reFilename h = none ∨ reFilename h = some []) ∧
    dealPostData
        (⟨toChars "/", some (toChars "multipart/form-data; boundary=XYZ"),
          some (toChars "70"), none, mkBody (toBytes "XYZ") partsNoFn⟩ : Req)
        sysRootDir =
      ⟨false, toChars "No file found in upload data", []⟩ :=
  ⟨by decide,
    upload_no_filename_rejected sysRootDir (toChars "/")
      (toChars "multipart/form-data; boundary=XYZ") (toChars "70")
      (toChars "XYZ") (toBytes "XYZ") partsNoFn none
      (by decide) (by decide) (by decide) (by decide) (by decide) (by decide)
      (by decide) (by decide) (by decide) (by decide)⟩
